import Mathlib

/-!
# Verification of the spot/future spread backtest and execution engine

A shallow embedding of `quant_trader` (backtest.py, execution.py):
contract-roll segment construction, contract-size detection, the
step-rounding helper, the TWAP open run, and the daily mark-to-market
simulation.  Prices, notionals and PnL are modelled as exact rationals
(the source uses Python floats); Python `int` arithmetic is modelled
with `Int`/`Nat`; `datetime.date` values are modelled as rata-die day
numbers (days since 0000-03-01 of the proleptic Gregorian calendar).
-/

set_option allowUnsafeReducibility true

attribute [semireducible] Rat.inv Rat.div Rat.mul Rat.add Rat.sub

deriving instance DecidableEq for Except

namespace QuantTrader

/-! ## Calendar model

`datetime.date` is modelled by a day count.  `gdays y m d` is the
standard civil-from-date day number (days since 0000-03-01), and
`weekday` is calibrated so that Monday = 0 … Friday = 4, matching
Python's `date.weekday()`. -/

/-- Day number of a Gregorian calendar date (days since 0000-03-01). -/
def gdays (year month day : ℕ) : ℕ :=
  let y := if month ≤ 2 then year - 1 else year
  let era := y / 400
  let yoe := y - era * 400
  let mp := (month + 9) % 12
  let doy := (153 * mp + 2) / 5 + (day - 1)
  let doe := yoe * 365 + yoe / 4 - yoe / 100 + doy
  era * 146097 + doe

/-- Python `date.weekday()`: Monday = 0, …, Friday = 4, Sunday = 6. -/
def weekday (g : ℕ) : ℕ := (g + 2) % 7

/-- Year of a day number (inverse of `gdays` on the year component). -/
def yearOf (g : ℕ) : ℕ :=
  let era := g / 146097
  let doe := g % 146097
  let yoe := (doe - doe / 1460 + doe / 36524 - doe / 146096) / 365
  let doy := doe - (365 * yoe + yoe / 4 - yoe / 100)
  let mp := (5 * doy + 2) / 153
  let m := if mp < 10 then mp + 3 else mp - 9
  if m ≤ 2 then era * 400 + yoe + 1 else era * 400 + yoe

/-- Gregorian leap year rule. -/
def isLeap (y : ℕ) : Bool := (y % 4 == 0 && y % 100 != 0) || (y % 400 == 0)

/-- Length of a month; `first day of next month − 1 day` in the source. -/
def lastDayOfMonth (y m : ℕ) : ℕ :=
  if m = 2 then (if isLeap y then 29 else 28)
  else if m = 4 ∨ m = 6 ∨ m = 9 ∨ m = 11 then 30 else 31

/-- A calendar date as a (year, month, day) triple. -/
structure Ymd where
  y : ℕ
  m : ℕ
  d : ℕ
deriving DecidableEq, Repr

/-- Day number of a `Ymd`. -/
def Ymd.toDay (x : Ymd) : ℕ := gdays x.y x.m x.d

/-- The `while candidate.weekday() != 4: candidate -= 1` loop of
`_last_friday`, walking back through days of the month (the loop never
needs more than 6 steps, so fuel 7 suffices). -/
def fridaySearch : ℕ → ℕ → ℕ → ℕ → ℕ
  | 0, _, _, d => d
  | fuel + 1, y, m, d => if weekday (gdays y m d) = 4 then d else fridaySearch fuel y m (d - 1)

/-- Source `_last_friday(year, month)`: last Friday of the given month. -/
def lastFriday (year month : ℕ) : Ymd :=
  ⟨year, month, fridaySearch 7 year month (lastDayOfMonth year month)⟩

/-! ## Configuration and data model (backtest.py) -/

/-- Source `BacktestConfig` (backtest.py).  Dates are day numbers; the
`output_path` field only affects CSV writing and is out of scope.
`__post_init__` validates `start_date ≤ end_date`; theorems that need
validity take it as a hypothesis. -/
structure BacktestConfig where
  start_date : ℕ
  end_date : ℕ
  notional_usdt : ℚ := 1000000
  roll_buffer_days : ℕ := 1
  spot_symbol : String := "BTCUSDT"
  future_pair : String := "BTCUSD"
deriving DecidableEq, Repr

/-- One contract segment, `{"symbol", "start", "end", "contractSize"}`
as built by `_build_contract_segments` (`stop` models the dict key
`"end"`, a Lean keyword). -/
structure Segment where
  symbol : String
  start : ℕ
  stop : ℕ
  contractSize : ℚ
deriving DecidableEq, Repr

/-- One entry of `exchange_info()["symbols"]` as read by
`_detect_contract_size`: only the fields the code touches.
`contractSize = none` covers a missing, falsy, or unparsable value
(the `if size:` / `float(size)` failure paths all `continue`;
a present numeric `0` is falsy in Python, so it is folded into the
`v = 0` test below). -/
structure FSymbol where
  pair : String
  contractType : String
  contractSize : Option ℚ
deriving DecidableEq, Repr

/-- Loop body of `_detect_contract_size` over `info["symbols"]`. -/
def detectLoop (pair : String) : List FSymbol → ℚ
  | [] => 100
  | s :: rest =>
    if s.pair ≠ pair then detectLoop pair rest
    else if s.contractType = "PERPETUAL" then detectLoop pair rest
    else
      match s.contractSize with
      | some v => if v ≠ 0 then v else detectLoop pair rest
      | none => detectLoop pair rest

/-- Source `_detect_contract_size`: `none` models the `exchange_info()` call
raising (caught, `info = None`) or returning a non-dict. -/
def detectContractSize (pair : String) : Option (List FSymbol) → ℚ
  | none => 100
  | some syms => detectLoop pair syms

/-- Python `strftime` zero-padded two-digit field. -/
def pad2 (n : ℕ) : String := if n < 10 then "0" ++ toString n else toString n

/-- Source `_format_delivery_symbol`: `{pair}_{delivery.strftime('%y%m%d')}`. -/
def formatDeliverySymbol (pair : String) (dl : Ymd) : String :=
  pair ++ "_" ++ pad2 (dl.y % 100) ++ pad2 dl.m ++ pad2 dl.d

/-- Insertion step for `sorted` (by date). -/
def insertSorted (x : Ymd) : List Ymd → List Ymd
  | [] => [x]
  | v :: ys => if x.toDay ≤ v.toDay then x :: v :: ys else v :: insertSorted x ys

/-- Python `sorted` on dates. -/
def sortByDay (l : List Ymd) : List Ymd := l.foldr insertSorted []

/-- Adjacent deduplication; on a sorted list this is exactly the effect
of `sorted(set(...))`. -/
def dedupAdjacent : List Ymd → List Ymd
  | [] => []
  | [x] => [x]
  | x :: v :: rest =>
    if x.toDay = v.toDay then dedupAdjacent (v :: rest) else x :: dedupAdjacent (v :: rest)

/-- The quarterly delivery enumeration of `_build_contract_segments`:
last Fridays of Mar/Jun/Sep/Dec for every year from `earliest.year` to
`latest.year`, filtered to `[earliest, latest]`, then `sorted(set(·))`. -/
def quarterlyDeliveries (earliest latest : ℕ) : List Ymd :=
  let y0 := yearOf earliest
  let y1 := yearOf latest
  let raw := (List.range' y0 (y1 + 1 - y0)).flatMap fun year =>
    [3, 6, 9, 12].filterMap fun month =>
      let dl := lastFriday year month
      if dl.toDay < earliest || latest < dl.toDay then none else some dl
  dedupAdjacent (sortByDay raw)

/-- The delivery walk of `_build_contract_segments`: for each delivery,
a segment from the cursor to `min(delivery − buffer, end_date)`, skipped
when empty; break once the cursor passes `end_date`; a fatal error when
the deliveries run out first. -/
def segAux (pair : String) (buf endDate : ℕ) (cs : ℚ) :
    List Ymd → ℕ → Except String (List Segment)
  | [], cursor =>
    if cursor ≤ endDate then
      .error "Not enough delivery contracts to cover the requested window."
    else .ok []
  | dl :: rest, cursor =>
    if min (dl.toDay - buf) endDate < cursor then segAux pair buf endDate cs rest cursor
    else if endDate < min (dl.toDay - buf) endDate + 1 then
      .ok [⟨formatDeliverySymbol pair dl, cursor, min (dl.toDay - buf) endDate, cs⟩]
    else
      (segAux pair buf endDate cs rest (min (dl.toDay - buf) endDate + 1)).map
        (⟨formatDeliverySymbol pair dl, cursor, min (dl.toDay - buf) endDate, cs⟩ :: ·)

/-- Source `_build_contract_segments`, parameterized by the exchange-info
payload consumed by `_detect_contract_size`. -/
def buildContractSegments (cfg : BacktestConfig) (info : Option (List FSymbol)) :
    Except String (List Segment) :=
  let contract_size := detectContractSize cfg.future_pair info
  let earliest := cfg.start_date - 365
  let latest := cfg.end_date + 365
  segAux cfg.future_pair cfg.roll_buffer_days cfg.end_date contract_size
    (quarterlyDeliveries earliest latest) cfg.start_date

/-- The backtest window of Scenario A / `run_example`:
2021-01-01 .. 2021-09-30, buffer 1, pair BTCUSD. -/
def cfg2021 : BacktestConfig :=
  { start_date := gdays 2021 1 1, end_date := gdays 2021 9 30 }

/-! ## Rounding helpers (execution.py)

Python's builtin `round` rounds half to even; `round(x, p)` rounds at
the `p`-th decimal.  `int(round(-math.log10(step)))` is modelled
exactly over ℚ: for rational `step` the value `-log10 step` is a half
integer only when `step` is an integral power of ten times `√10`,
which is irrational, so the half-to-even tie never fires and Python's
`round` agrees with `⌊· + 1/2⌋`. -/

/-- Python `round(x)`: round half to even, as an integer. -/
def bankersRound (x : ℚ) : ℤ :=
  if x - (⌊x⌋ : ℚ) < 1 / 2 then ⌊x⌋
  else if 1 / 2 < x - (⌊x⌋ : ℚ) then ⌊x⌋ + 1
  else if ⌊x⌋ % 2 = 0 then ⌊x⌋ else ⌊x⌋ + 1

/-- Fuel-bounded base-10 logarithm on ℕ (`fuel ≥ n` suffices); a
kernel-reducible equivalent of `Nat.log 10`. -/
def natLog10Aux : ℕ → ℕ → ℕ
  | 0, _ => 0
  | fuel + 1, n => if n < 10 then 0 else natLog10Aux fuel (n / 10) + 1

/-- Floor base-10 logarithm on ℕ. -/
def natLog10 (n : ℕ) : ℕ := natLog10Aux n n

/-- Fuel-bounded base-10 ceiling logarithm on ℕ. -/
def natClog10Aux : ℕ → ℕ → ℕ
  | 0, _ => 0
  | fuel + 1, n => if n ≤ 1 then 0 else natClog10Aux fuel ((n + 9) / 10) + 1

/-- Ceiling base-10 logarithm on ℕ. -/
def natClog10 (n : ℕ) : ℕ := natClog10Aux n n

/-- Floor base-10 logarithm on ℚ (the base-10 instance of `Int.log`, written with
the fuel-bounded helpers so that it reduces inside the kernel). -/
def intLog10 (r : ℚ) : ℤ :=
  if 1 ≤ r then (natLog10 ⌊r⌋₊ : ℤ) else -(natClog10 ⌈r⁻¹⌉₊ : ℤ)

/-- Python `round(-math.log10 s)` for `s > 0`:
`⌊-log10 s + 1/2⌋ = L + 1` exactly when `s⁻¹ ≥ 10 ^ (L + 1/2)`, i.e.
`s⁻¹ ^ 2 ≥ 10 ^ (2L + 1)`, where `L = ⌊log10 s⁻¹⌋` (the tie of
round-half-to-even would need `log10 s` to be a half integer, which is
impossible for rational `s`). -/
def roundNegLog10 (s : ℚ) : ℤ :=
  if (10 : ℚ) ^ (2 * intLog10 s⁻¹ + 1) ≤ s⁻¹ ^ 2 then intLog10 s⁻¹ + 1
  else intLog10 s⁻¹

/-- Source `_round_to_step(value, step)`: floor to the step grid, then round
the product at precision `max(0, round(-log10 step))`.  (For
`step < 0` Python's `math.log10` would raise; no caller passes a
negative step.) -/
def round_to_step (value step : ℚ) : ℚ :=
  if step = 0 then value
  else
    ((bankersRound ((⌊value / step⌋ : ℚ) * step *
        10 ^ (max 0 (roundNegLog10 step)).toNat) : ℤ) : ℚ) /
      10 ^ (max 0 (roundNegLog10 step)).toNat

/-! ## Execution engine (execution.py)

The TWAP open run is modelled as a pure fold over the slice indices.
Market data (best bid/ask per tick) is a parameter; order submission
and the inter-slice sleep are recorded as events (`logger` calls are
not modelled).  `time.sleep` happens exactly when the code reaches the
`if not dry_run and idx + 1 < slices` branch, so a `slept` event
stands for one wall-clock sleep call. -/

/-- Source `ExecutionConfig` (execution.py).  `duration_hours` and
`slice_interval_minutes` are Python ints. -/
structure ExecutionConfig where
  notional_usdt : ℚ := 1000000
  duration_hours : ℤ := 24
  slice_interval_minutes : ℤ := 5
  price_offset_bps : ℚ := 5
  min_spot_qty : ℚ := 1 / 10000
  dry_run : Bool := true
  use_market_orders : Bool := true
deriving DecidableEq, Repr

/-- Property `num_slices`: `max(1, duration_hours * 60 // slice_interval_minutes)`.
Lean's `Int` division is Euclidean, which agrees with Python's floor
division whenever the divisor is positive (the only case that does not
raise `ZeroDivisionError` or occur with a negative interval). -/
def ExecutionConfig.num_slices (c : ExecutionConfig) : ℤ :=
  max 1 (c.duration_hours * 60 / c.slice_interval_minutes)

/-- Order side. -/
inductive Side
  | buy
  | sell
deriving DecidableEq, Repr

/-- Order type: `MARKET` vs `LIMIT`. -/
inductive OrdType
  | market
  | limit
deriving DecidableEq, Repr

/-- An order payload as assembled by `_place_spot_slice` /
`_place_future_slice` (`timeInForce` is constant `GTC` on limit
orders and omitted). -/
structure Order where
  symbol : String
  account : String
  side : Side
  otype : OrdType
  quantity : ℚ
  price : Option ℚ
deriving DecidableEq, Repr

/-- Observable effects of one run: an order handed to the order
executor, a dry-run log of an order, or one `time.sleep` call. -/
inductive Event
  | submitted (o : Order)
  | dryLogged (o : Order)
  | slept
deriving DecidableEq, Repr

/-- Whether an event is a sleep. -/
def Event.isSlept : Event → Bool
  | .slept => true
  | _ => false

/-- Whether an event is a live order submission. -/
def Event.isSubmitted : Event → Bool
  | .submitted _ => true
  | _ => false

/-- Spot symbol filters from `_load_spot_filters`. -/
structure SpotFilter where
  stepSize : ℚ
  tickSize : ℚ
  minQty : ℚ
deriving DecidableEq, Repr

/-- Future symbol filters from `_load_future_filters`. -/
structure FutureFilter where
  stepSize : ℚ
  tickSize : ℚ
  contractSize : ℚ
  deliveryDate : ℤ
deriving DecidableEq, Repr

/-- A constructed `SpreadExecutor` (clients are external; the resolved
filters are carried as data). -/
structure SpreadExecutor where
  config : ExecutionConfig
  spot_symbol : String
  future_symbol : String
  spotFilter : SpotFilter
  futureFilter : FutureFilter
deriving DecidableEq, Repr

/-- Field `self.contract_size = float(self._future_filter["contractSize"])`. -/
def SpreadExecutor.contract_size (ex : SpreadExecutor) : ℚ :=
  ex.futureFilter.contractSize

/-- Python `int(q)`: truncation toward zero. -/
def pyInt (q : ℚ) : ℤ := if 0 ≤ q then ⌊q⌋ else -⌊-q⌋

/-- Source `_limit_price`. -/
def SpreadExecutor.limit_price (ex : SpreadExecutor) (side : Side) (bid ask tick : ℚ) : ℚ :=
  let offset := ex.config.price_offset_bps / 10000
  let price :=
    match side with
    | .buy => min (ask * (1 + offset)) (ask * (1001 / 1000))
    | .sell => max (bid * (1 - offset)) (bid * (999 / 1000))
  round_to_step price tick

/-- Source `_submit_order`: in dry-run mode the order is only logged. -/
def SpreadExecutor.submitEvents (ex : SpreadExecutor) (o : Order) : List Event :=
  if ex.config.dry_run then [.dryLogged o] else [.submitted o]

/-- Source `_place_spot_slice`: returns the executed size and the emitted
events. -/
def SpreadExecutor.place_spot_slice (ex : SpreadExecutor) (side : Side)
    (target_qty best_bid best_ask : ℚ) : ℚ × List Event :=
  if target_qty ≤ 0 then (0, [])
  else
    let min_qty := max ex.config.min_spot_qty ex.spotFilter.minQty
    let clip := round_to_step target_qty ex.spotFilter.stepSize
    if clip < min_qty then (0, [])
    else
      let order : Order :=
        if ex.config.use_market_orders then
          ⟨ex.spot_symbol, "SPOT", side, .market, clip, none⟩
        else
          ⟨ex.spot_symbol, "SPOT", side, .limit, clip,
            some (ex.limit_price side best_bid best_ask ex.spotFilter.tickSize)⟩
      (clip, ex.submitEvents order)

/-- Source `_place_future_slice`. -/
def SpreadExecutor.place_future_slice (ex : SpreadExecutor) (side : Side)
    (target_contracts best_bid best_ask : ℚ) : ℚ × List Event :=
  if target_contracts ≤ 0 then (0, [])
  else
    let step := ex.futureFilter.stepSize
    let min_contract := max step (if 1 ≤ step then 1 else step)
    let clip := round_to_step target_contracts step
    if clip < min_contract then (0, [])
    else
      let quantity : ℚ := if 1 ≤ step then ((pyInt clip : ℤ) : ℚ) else clip
      let order : Order :=
        if ex.config.use_market_orders then
          ⟨ex.future_symbol, "FUTURE", side, .market, quantity, none⟩
        else
          ⟨ex.future_symbol, "FUTURE", side, .limit, quantity,
            some (ex.limit_price side best_bid best_ask ex.futureFilter.tickSize)⟩
      (clip, ex.submitEvents order)

/-- Everything one iteration of the `_run_twap_open` loop does to the
remaining notionals, plus its events. -/
structure TickRes where
  idx : ℕ
  spotRemBefore : ℚ
  futRemBefore : ℚ
  executedSpotNotional : ℚ
  executedFutNotional : ℚ
  spotRemAfter : ℚ
  futRemAfter : ℚ
  events : List Event
deriving DecidableEq, Repr, Inhabited

/-- One iteration of the `_run_twap_open` loop.  When the spot price is
unavailable (`≤ 0`) the iteration `continue`s: nothing is executed and
no sleep happens. -/
def SpreadExecutor.openTick (ex : SpreadExecutor) (spotSide futSide : Side)
    (spotBook futBook : ℚ × ℚ) (slices idx : ℕ) (spotRem futRem : ℚ) : TickRes :=
  let slicesLeft : ℕ := max 1 (slices - idx)
  let spotPrice := match spotSide with | .buy => spotBook.2 | .sell => spotBook.1
  if spotPrice ≤ 0 then ⟨idx, spotRem, futRem, 0, 0, spotRem, futRem, []⟩
  else
    let plannedSpotQty := spotRem / (slicesLeft : ℚ) / spotPrice
    let plannedFutContracts := futRem / (slicesLeft : ℚ) / ex.contract_size
    let spotRes := ex.place_spot_slice spotSide plannedSpotQty spotBook.1 spotBook.2
    let futRes := ex.place_future_slice futSide plannedFutContracts futBook.1 futBook.2
    let executedSpot := spotRes.1 * spotPrice
    let executedFut := futRes.1 * ex.contract_size
    let sleepEv := if ex.config.dry_run = false ∧ idx + 1 < slices then [Event.slept] else []
    ⟨idx, spotRem, futRem, executedSpot, executedFut,
      max 0 (spotRem - executedSpot), max 0 (futRem - executedFut),
      spotRes.2 ++ futRes.2 ++ sleepEv⟩

/-- The `for idx in range(slices)` loop of `_run_twap_open`, threading
the remaining notionals. -/
def SpreadExecutor.runOpenAux (ex : SpreadExecutor) (spotSide futSide : Side)
    (sb fb : ℕ → ℚ × ℚ) (slices : ℕ) : List ℕ → ℚ → ℚ → List TickRes
  | [], _, _ => []
  | idx :: rest, sRem, fRem =>
    let r := ex.openTick spotSide futSide (sb idx) (fb idx) slices idx sRem fRem
    r :: ex.runOpenAux spotSide futSide sb fb slices rest r.spotRemAfter r.futRemAfter

/-- Source `_run_twap_open(spot_side, future_side)`: both remaining notionals
start at `notional_usdt`. -/
def SpreadExecutor.run_twap_open (ex : SpreadExecutor) (spotSide futSide : Side)
    (sb fb : ℕ → ℚ × ℚ) : List TickRes :=
  let slices := ex.config.num_slices.toNat
  ex.runOpenAux spotSide futSide sb fb slices (List.range slices)
    ex.config.notional_usdt ex.config.notional_usdt

/-- Source `open_position`: buy spot, sell future. -/
def SpreadExecutor.open_position (ex : SpreadExecutor) (sb fb : ℕ → ℚ × ℚ) : List TickRes :=
  ex.run_twap_open .buy .sell sb fb

/-! ## Mark-to-market simulation (backtest.py `_simulate`)

Daily prices are partial maps (a missing price is the fatal
`RuntimeError`); the per-day loop is a fuel recursion over the number
of days in the window.  Python's float division by zero raises, so the
corresponding branches return an error. -/

/-- Mapping `day_to_symbol`: the dict maps each in-segment day to the symbol of
the *last* segment (in list order) containing it — later dict writes
win. -/
def dayToSymbol (segs : List Segment) (day : ℕ) : Option String :=
  (segs.reverse.find? fun s => s.start ≤ day && day ≤ s.stop).map (·.symbol)

/-- Mapping `segment_meta`: symbol → segment, last write wins. -/
def segMetaFind (segs : List Segment) (sym : String) : Option Segment :=
  segs.reverse.find? fun s => s.symbol == sym

/-- Python `a or b` on floats: `b` when `a` is `None` or `0.0`. -/
def pyOrQ : Option ℚ → ℚ → ℚ
  | none, d => d
  | some v, d => if v = 0 then d else v

/-- Python `a or b` on optional ints. -/
def pyOrZ : Option ℤ → ℤ → ℤ
  | none, d => d
  | some v, d => if v = 0 then d else v

/-- One row of the records list built by `_simulate`. -/
structure DailyRecord where
  day : ℕ
  spot_price : ℚ
  future_symbol : String
  future_price : ℚ
  spot_position : ℚ
  future_contracts : ℚ
  spot_pnl : ℚ
  future_pnl : ℚ
  total_pnl : ℚ
  cum_pnl : ℚ
  roll : Bool
deriving DecidableEq, Repr, Inhabited

/-- The loop-carried state of `_simulate`. -/
structure SimState where
  prevSpot : Option ℚ
  prevFut : Option ℚ
  prevSym : Option String
  spotQty : Option ℚ
  contracts : Option ℤ
  cum : ℚ
deriving DecidableEq, Repr

/-- The body of the daily loop of `_simulate`: one day's record plus
the updated loop-carried state.  The roll condition is
`symbol != prev_symbol or prev_spot_price is None`; on a roll the
position is re-established with zero PnL, otherwise the spot and
inverse-future PnL legs are marked to market.  Python would raise
`ZeroDivisionError` on the guarded divisions. -/
def simStep (cfg : BacktestConfig) (spotP : ℕ → Option ℚ)
    (futP : String → ℕ → Option ℚ) (segs : List Segment) (day : ℕ) (st : SimState) :
    Except String (DailyRecord × SimState) :=
  match spotP day, dayToSymbol segs day with
  | some spot_price, some symbol =>
    match futP symbol day with
    | some future_price =>
      match segMetaFind segs symbol with
      | some seg =>
        match (if (st.prevSym != some symbol) || st.prevSpot.isNone then
            (if spot_price = 0 ∨ seg.contractSize = 0 then
              Except.error "ZeroDivisionError"
            else
              Except.ok (0, 0, some (cfg.notional_usdt / spot_price),
                some (max 1 (bankersRound (cfg.notional_usdt / seg.contractSize)))))
          else
            (if pyOrQ st.prevFut future_price = 0 ∨ future_price = 0 then
              Except.error "ZeroDivisionError"
            else
              Except.ok (pyOrQ st.spotQty 0 * (spot_price - pyOrQ st.prevSpot spot_price),
                -1 * ((pyOrZ st.contracts 0 : ℤ) : ℚ) * seg.contractSize *
                  (1 / pyOrQ st.prevFut future_price - 1 / future_price) * spot_price,
                st.spotQty, st.contracts)) : Except String (ℚ × ℚ × Option ℚ × Option ℤ)) with
        | .error e => .error e
        | .ok (spot_pnl, future_pnl, spotQty, contracts) =>
          .ok (⟨day, spot_price, symbol, future_price, pyOrQ spotQty 0,
              ((pyOrZ contracts 0 : ℤ) : ℚ), spot_pnl, future_pnl, spot_pnl + future_pnl,
              st.cum + (spot_pnl + future_pnl),
              (st.prevSym != some symbol) || st.prevSpot.isNone⟩,
            ⟨some spot_price, some future_price, some symbol, spotQty, contracts,
              st.cum + (spot_pnl + future_pnl)⟩)
      | none => .error "KeyError"
    | none => .error ("Missing future price for " ++ symbol ++ " on " ++ toString day ++ ".")
  | _, _ => .error ("Missing price data for " ++ toString day ++ ".")

/-- The daily loop of `_simulate`: fuel counts the remaining days. -/
def simAux (cfg : BacktestConfig) (spotP : ℕ → Option ℚ)
    (futP : String → ℕ → Option ℚ) (segs : List Segment) :
    ℕ → ℕ → SimState → Except String (List DailyRecord)
  | 0, _, _ => .ok []
  | n + 1, day, st =>
    match simStep cfg spotP futP segs day st with
    | .error e => .error e
    | .ok (row, st') =>
      (simAux cfg spotP futP segs n (day + 1) st').map (row :: ·)

/-- Source `_simulate(spot_prices, future_prices, segments)`. -/
def simulate (cfg : BacktestConfig) (spotP : ℕ → Option ℚ)
    (futP : String → ℕ → Option ℚ) (segs : List Segment) :
    Except String (List DailyRecord) :=
  simAux cfg spotP futP segs (cfg.end_date + 1 - cfg.start_date) cfg.start_date
    ⟨none, none, none, none, none, 0⟩

/-! ## Concrete scenarios -/

/-- The segment list the code actually produces for Scenario A. -/
def segsA : List Segment :=
  [⟨"BTCUSD_210326", gdays 2021 1 1, gdays 2021 3 25, 100⟩,
   ⟨"BTCUSD_210625", gdays 2021 3 26, gdays 2021 6 24, 100⟩,
   ⟨"BTCUSD_210924", gdays 2021 6 25, gdays 2021 9 23, 100⟩,
   ⟨"BTCUSD_211231", gdays 2021 9 24, gdays 2021 9 30, 100⟩]

/-- A window whose enumerated deliveries cannot cover it: a 400-day
roll buffer pushes every roll date of the padded delivery range before
the window's end. -/
def cfgInsufficient : BacktestConfig := { cfg2021 with roll_buffer_days := 400 }

/-- Scenario B inputs: constant 40 000 spot, constant 50 000 future,
one segment of three days, contract size 100. -/
def cfgW : BacktestConfig := { start_date := 0, end_date := 2 }

/-- Scenario B spot prices. -/
def spotW : ℕ → Option ℚ := fun _ => some 40000

/-- Scenario B future prices. -/
def futW : String → ℕ → Option ℚ := fun _ _ => some 50000

/-- Scenario B segments. -/
def segsW : List Segment := [⟨"BTCUSD_210326", 0, 2, 100⟩]

/-- The records `_simulate` produces on Scenario B. -/
def recsW : List DailyRecord := (simulate cfgW spotW futW segsW).toOption.getD []

/-- Day 0 of Scenario B. -/
def recW0 : DailyRecord := recsW.headD default

/-- A one-slice executor with power-of-ten steps (spot 0.001, future 1),
contract size 100. -/
def exW6 : SpreadExecutor :=
  { config := { notional_usdt := 100000, duration_hours := 0, slice_interval_minutes := 5 },
    spot_symbol := "BTCUSDT", future_symbol := "BTCUSD_210326",
    spotFilter := ⟨1 / 1000, 1 / 100, 1 / 10000⟩, futureFilter := ⟨1, 1 / 10, 100, 0⟩ }

/-- Constant 50 000 best bid/ask. -/
def bookW : ℕ → ℚ × ℚ := fun _ => (50000, 50000)

/-- A one-slice executor whose spot lot step 3/8 = 0.375 is *not* a
power of ten.  Every quantity here (0.375, 1.5, 1) is an exact binary
double, `1.5 / 0.375 = 4` is an exact IEEE division, and Python's
`round(1.5, 0) = 2.0` rounds the half up to the even integer, so the
float source computes bit-for-bit the same values as this exact
model. -/
def exC7 : SpreadExecutor :=
  { config := { notional_usdt := 3 / 2, duration_hours := 0, slice_interval_minutes := 5 },
    spot_symbol := "S", future_symbol := "F",
    spotFilter := ⟨3 / 8, 1 / 100, 1 / 10000⟩, futureFilter := ⟨1, 1 / 10, 1, 0⟩ }

/-- Constant unit best bid/ask. -/
def onesBook : ℕ → ℚ × ℚ := fun _ => (1, 1)

/-! ## Properties of the rounding helper -/

theorem bankersRound_intCast (n : ℤ) : bankersRound (n : ℚ) = n := by
  unfold bankersRound
  simp

theorem bankersRound_nonneg {x : ℚ} (hx : 0 ≤ x) : 0 ≤ bankersRound x := by
  have h0 : (0 : ℤ) ≤ ⌊x⌋ := Int.floor_nonneg.mpr hx
  unfold bankersRound
  split
  · exact h0
  · split
    · omega
    · split <;> omega

theorem natLog10Aux_pow10 : ∀ (fuel m : ℕ), 10 ^ m ≤ fuel → natLog10Aux fuel (10 ^ m) = m := by
  intro fuel
  induction fuel with
  | zero =>
    intro m h
    have hpos : 0 < 10 ^ m := Nat.pos_pow_of_pos m (by norm_num)
    omega
  | succ f ih =>
    intro m h
    cases m with
    | zero => simp [natLog10Aux]
    | succ k =>
      have hx : 1 ≤ 10 ^ k := Nat.one_le_pow k 10 (by norm_num)
      have hxs : 10 ^ (k + 1) = 10 ^ k * 10 := pow_succ 10 k
      have hge : ¬ 10 ^ (k + 1) < 10 := by omega
      have hdiv : 10 ^ (k + 1) / 10 = 10 ^ k := by
        rw [hxs]
        exact Nat.mul_div_cancel _ (by norm_num)
      have hfuel : 10 ^ k ≤ f := by omega
      unfold natLog10Aux
      rw [if_neg hge, hdiv, ih k hfuel]

theorem natClog10Aux_pow10 : ∀ (fuel m : ℕ), 10 ^ m ≤ fuel → natClog10Aux fuel (10 ^ m) = m := by
  intro fuel
  induction fuel with
  | zero =>
    intro m h
    have hpos : 0 < 10 ^ m := Nat.pos_pow_of_pos m (by norm_num)
    omega
  | succ f ih =>
    intro m h
    cases m with
    | zero => simp [natClog10Aux]
    | succ k =>
      have hx : 1 ≤ 10 ^ k := Nat.one_le_pow k 10 (by norm_num)
      have hxs : 10 ^ (k + 1) = 10 ^ k * 10 := pow_succ 10 k
      have hgt : ¬ 10 ^ (k + 1) ≤ 1 := by omega
      have hdiv : (10 ^ (k + 1) + 9) / 10 = 10 ^ k := by omega
      have hfuel : 10 ^ k ≤ f := by omega
      unfold natClog10Aux
      rw [if_neg hgt, hdiv, ih k hfuel]

theorem natLog10_pow10 (m : ℕ) : natLog10 (10 ^ m) = m :=
  natLog10Aux_pow10 (10 ^ m) m le_rfl

theorem natClog10_pow10 (m : ℕ) : natClog10 (10 ^ m) = m :=
  natClog10Aux_pow10 (10 ^ m) m le_rfl

theorem pow10_cast_q (n : ℕ) : ((10 ^ n : ℕ) : ℚ) = (10 : ℚ) ^ (n : ℤ) := by
  push_cast
  rw [← zpow_natCast (10 : ℚ) n]

theorem intLog10_zpow10 (w : ℤ) : intLog10 ((10 : ℚ) ^ w) = w := by
  unfold intLog10
  rcases le_or_lt 0 w with hw | hw
  · have h1 : (1 : ℚ) ≤ (10 : ℚ) ^ w := one_le_zpow₀ (by norm_num) hw
    rw [if_pos h1]
    have hcast : (10 : ℚ) ^ w = ((10 ^ w.toNat : ℕ) : ℚ) := by
      rw [pow10_cast_q, Int.toNat_of_nonneg hw]
    rw [hcast, Nat.floor_natCast, natLog10_pow10, Int.toNat_of_nonneg hw]
  · have hlt : (10 : ℚ) ^ w < 1 := zpow_lt_one_of_neg₀ (by norm_num) hw
    rw [if_neg (not_le.mpr hlt)]
    have hinv : ((10 : ℚ) ^ w)⁻¹ = (10 : ℚ) ^ (-w) := (zpow_neg (10 : ℚ) w).symm
    have hcast : (10 : ℚ) ^ (-w) = ((10 ^ (-w).toNat : ℕ) : ℚ) := by
      rw [pow10_cast_q, Int.toNat_of_nonneg (by omega)]
    rw [hinv, hcast, Nat.ceil_natCast, natClog10_pow10]
    omega

theorem roundNegLog10_zpow (z : ℤ) : roundNegLog10 ((10 : ℚ) ^ z) = -z := by
  unfold roundNegLog10
  have hinv : ((10 : ℚ) ^ z)⁻¹ = (10 : ℚ) ^ (-z) := (zpow_neg (10 : ℚ) z).symm
  have hlog : intLog10 ((10 : ℚ) ^ (-z)) = -z := intLog10_zpow10 (-z)
  rw [hinv, hlog]
  have hsq : ((10 : ℚ) ^ (-z)) ^ (2 : ℕ) = (10 : ℚ) ^ (-z * 2) := by
    rw [← zpow_natCast ((10 : ℚ) ^ (-z)) 2, ← zpow_mul]
    norm_num
  have hcond : ¬ (10 : ℚ) ^ (2 * -z + 1) ≤ (10 : ℚ) ^ (-z * 2) := by
    rw [zpow_le_zpow_iff_right₀ (by norm_num : (1 : ℚ) < 10)]
    omega
  rw [hsq, if_neg hcond]

theorem round_to_step_zpow (v : ℚ) (z : ℤ) :
    round_to_step v ((10 : ℚ) ^ z) = (⌊v / (10 : ℚ) ^ z⌋ : ℚ) * (10 : ℚ) ^ z := by
  unfold round_to_step
  have hz : (10 : ℚ) ^ z ≠ 0 := zpow_ne_zero z (by norm_num)
  rw [if_neg hz, roundNegLog10_zpow]
  set p : ℕ := (max 0 (-z)).toNat with hp
  have hpz : z + (p : ℤ) = max z 0 := by
    rw [hp]
    omega
  have hzp : 0 ≤ z + (p : ℤ) := by omega
  have hpow : (10 : ℚ) ^ z * (10 : ℚ) ^ (p : ℕ) = (10 : ℚ) ^ (z + (p : ℤ)) := by
    rw [← zpow_natCast (10 : ℚ) p, ← zpow_add₀ (by norm_num : (10 : ℚ) ≠ 0)]
  have hint : (⌊v / (10 : ℚ) ^ z⌋ : ℚ) * (10 : ℚ) ^ z * (10 : ℚ) ^ (p : ℕ) =
      ((⌊v / (10 : ℚ) ^ z⌋ * 10 ^ (z + (p : ℤ)).toNat : ℤ) : ℚ) := by
    rw [mul_assoc, hpow]
    push_cast
    rw [← zpow_natCast (10 : ℚ) (z + (p : ℤ)).toNat, Int.toNat_of_nonneg hzp]
  rw [hint, bankersRound_intCast]
  push_cast
  rw [← zpow_natCast (10 : ℚ) (z + (p : ℤ)).toNat, Int.toNat_of_nonneg hzp,
    ← zpow_natCast (10 : ℚ) p, mul_div_assoc,
    ← zpow_sub₀ (by norm_num : (10 : ℚ) ≠ 0)]
  simp

theorem round_to_step_zpow_le (v : ℚ) (z : ℤ) :
    round_to_step v ((10 : ℚ) ^ z) ≤ v := by
  rw [round_to_step_zpow]
  have hs : (0 : ℚ) < (10 : ℚ) ^ z := zpow_pos (by norm_num) z
  calc (⌊v / (10 : ℚ) ^ z⌋ : ℚ) * (10 : ℚ) ^ z
      ≤ v / (10 : ℚ) ^ z * (10 : ℚ) ^ z :=
        mul_le_mul_of_nonneg_right (Int.floor_le _) hs.le
    _ = v := div_mul_cancel₀ v hs.ne'

theorem round_to_step_nonneg {v s : ℚ} (hv : 0 ≤ v) (hs : 0 < s) :
    0 ≤ round_to_step v s := by
  unfold round_to_step
  rw [if_neg hs.ne']
  have hfl : (0 : ℚ) ≤ (⌊v / s⌋ : ℚ) :=
    Int.cast_nonneg.mpr (Int.floor_nonneg.mpr (div_nonneg hv hs.le))
  have harg : (0 : ℚ) ≤ (⌊v / s⌋ : ℚ) * s * 10 ^ (max 0 (roundNegLog10 s)).toNat :=
    mul_nonneg (mul_nonneg hfl hs.le) (by positivity)
  exact div_nonneg (Int.cast_nonneg.mpr (bankersRound_nonneg harg)) (by positivity)

/-- C10: `_round_to_step(value, 0)` is the identity: the zero step is
guarded before the division, so the helper is total and returns the
value unchanged. -/
theorem claim_C10_round_to_step_zero_step (v : ℚ) : round_to_step v 0 = v := by
  unfold round_to_step
  simp

/-- C5 counterexample: `rounded ≤ planned` fails.  For `value = step
= 0.07` the floor lands exactly on the grid (`0.07`), but the derived
precision is `round(-log10 0.07) = 1`, and re-rounding `0.07` at one
decimal yields `0.1 > 0.07`. -/
theorem claim_C5_counterexample :
    round_to_step (7 / 100) (7 / 100) = 1 / 10 ∧
      ¬ round_to_step (7 / 100) (7 / 100) ≤ 7 / 100 := by
  constructor <;> decide

/-- C5 (amended): the slicer floors to the step grid at precision
`max(0, round(-log10 step))`; for a step that is an integer power of
ten (every real exchange step) the result never exceeds the planned
size, and whenever the rounded size falls below the effective minimum
quantity (max of configured and exchange minimum) the slice executes
size 0 and emits no order. -/
theorem claim_C5_floor_rounding_and_min_qty_skip :
    (∀ (v : ℚ) (z : ℤ), 0 ≤ v → round_to_step v ((10 : ℚ) ^ z) ≤ v) ∧
    (∀ (ex : SpreadExecutor) (side : Side) (tq bb ba : ℚ),
      round_to_step tq ex.spotFilter.stepSize <
        max ex.config.min_spot_qty ex.spotFilter.minQty →
      ex.place_spot_slice side tq bb ba = (0, [])) := by
  refine ⟨fun v z _ => round_to_step_zpow_le v z, ?_⟩
  intro ex side tq bb ba h
  simp only [SpreadExecutor.place_spot_slice]
  split_ifs <;> rfl

theorem claim_C5_witness :
    round_to_step 1 ((10 : ℚ) ^ (-1 : ℤ)) ≤ 1 ∧
    SpreadExecutor.place_spot_slice exW6 Side.buy (1 / 100000) 50000 50000 = (0, []) :=
  ⟨claim_C5_floor_rounding_and_min_qty_skip.1 1 (-1) (by norm_num),
    claim_C5_floor_rounding_and_min_qty_skip.2 exW6 Side.buy (1 / 100000) 50000 50000
      (by decide)⟩

/-! ## Segment construction: concrete scenarios -/

/-- C2 counterexample: on the window 2021-01-01..2021-09-30 with
buffer 1 and pair BTCUSD the code produces 4 segments, not 3: after the
September segment ends at 2021-09-23 the cursor (2021-09-24) is still
inside the window, so a fourth segment on the December contract is
appended. -/
theorem claim_C2_counterexample :
    (buildContractSegments cfg2021 none).toOption.map List.length = some 4 ∧
      (4 : ℕ) ≠ 3 := by
  constructor <;> decide

/-- C2 (amended): the window 2021-01-01..2021-09-30 with buffer 1 and
pair BTCUSD yields exactly 4 segments: three ending at the March, June
and September expiries' buffer cutoff (expiry − 1 day), plus a fourth
on the December contract covering 2021-09-24 up to the window's own end
2021-09-30. -/
theorem claim_C2_segments_2021 :
    buildContractSegments cfg2021 none = .ok segsA := by
  decide

/-- Every segment produced by the delivery walk carries the contract
size it was given. -/
theorem segAux_contractSize (pair : String) (buf endD : ℕ) (cs : ℚ) :
    ∀ (dls : List Ymd) (cursor : ℕ) (segs : List Segment),
      segAux pair buf endD cs dls cursor = .ok segs →
      ∀ s ∈ segs, s.contractSize = cs := by
  intro dls
  induction dls with
  | nil =>
    intro cursor segs h s hs
    unfold segAux at h
    split at h
    · exact absurd h (by simp)
    · cases h
      cases hs
  | cons dl rest ih =>
    intro cursor segs h s hs
    unfold segAux at h
    split at h
    · exact ih cursor segs h s hs
    · split at h
      · cases h
        simp only [List.mem_singleton] at hs
        subst hs
        rfl
      · rcases hex : segAux pair buf endD cs rest (min (dl.toDay - buf) endD + 1) with e | segs'
        · rw [hex] at h
          exact absurd h (by simp [Except.map])
        · rw [hex] at h
          simp only [Except.map] at h
          cases h
          cases hs with
          | head => rfl
          | tail _ htl => exact ih _ segs' hex s htl

/-- Structural invariants of the delivery walk, for an arbitrary
delivery list: when it succeeds, the segments start at the cursor, are
contiguous, ordered, bounded by the window end, and the last one ends
exactly at the window end. -/
theorem segAux_spec (pair : String) (buf endD : ℕ) (cs : ℚ) :
    ∀ (dls : List Ymd) (cursor : ℕ) (segs : List Segment),
      segAux pair buf endD cs dls cursor = .ok segs →
      (segs = [] → endD < cursor) ∧
      (∀ s0, segs.head? = some s0 → s0.start = cursor) ∧
      (∀ s ∈ segs, cursor ≤ s.start ∧ s.start ≤ s.stop ∧ s.stop ≤ endD) ∧
      List.Chain' (fun a b => a.stop + 1 = b.start) segs ∧
      (∀ sl, segs.getLast? = some sl → sl.stop = endD) ∧
      List.Pairwise (fun a b => a.stop < b.start) segs := by
  intro dls
  induction dls with
  | nil =>
    intro cursor segs h
    unfold segAux at h
    split at h
    · exact absurd h (by simp)
    · cases h
      rename_i hgt
      refine ⟨fun _ => by omega, by simp, by simp, by simp, by simp, by simp⟩
  | cons dl rest ih =>
    intro cursor segs h
    unfold segAux at h
    split at h
    · rename_i hskip
      obtain ⟨hemp, hhead, hmem, hchain, hlast, hpair⟩ := ih cursor segs h
      exact ⟨hemp, hhead, hmem, hchain, hlast, hpair⟩
    · rename_i hskip
      split at h
      · rename_i hbreak
        cases h
        refine ⟨by simp, ?_, ?_, ?_, ?_, ?_⟩
        · intro s0 h0
          simp only [List.head?_cons, Option.some.injEq] at h0
          rw [← h0]
        · intro s hs
          simp only [List.mem_singleton] at hs
          subst hs
          refine ⟨le_rfl, by dsimp only; omega, by dsimp only; omega⟩
        · simp
        · intro sl hl
          simp only [List.getLast?_singleton, Option.some.injEq] at hl
          rw [← hl]
          dsimp only
          omega
        · simp
      · rename_i hbreak
        rcases hex : segAux pair buf endD cs rest (min (dl.toDay - buf) endD + 1) with e | segs'
        · rw [hex] at h
          exact absurd h (by simp [Except.map])
        · rw [hex] at h
          simp only [Except.map] at h
          cases h
          obtain ⟨hemp, hhead, hmem, hchain, hlast, hpair⟩ := ih _ segs' hex
          have hne' : segs' ≠ [] := by
            intro he
            have := hemp he
            omega
          refine ⟨by simp, ?_, ?_, ?_, ?_, ?_⟩
          · intro s0 h0
            simp only [List.head?_cons, Option.some.injEq] at h0
            rw [← h0]
          · intro s hs
            cases hs with
            | head =>
              refine ⟨le_rfl, by dsimp only; omega, by dsimp only; omega⟩
            | tail _ htl =>
              have hm := hmem s htl
              refine ⟨by omega, hm.2.1, hm.2.2⟩
          · rw [List.chain'_cons']
            refine ⟨?_, hchain⟩
            intro y hy
            have := hhead y hy
            dsimp only
            omega
          · intro sl hl
            rcases segs' with _ | ⟨s1, tl⟩
            · exact absurd rfl hne'
            · rw [List.getLast?_cons_cons] at hl
              exact hlast sl hl
          · rw [List.pairwise_cons]
            refine ⟨?_, hpair⟩
            intro t ht
            have := (hmem t ht).1
            dsimp only
            omega

/-- Walking the contiguous chain: every day between the first start
and the last end is inside some segment. -/
theorem segs_cover_forward :
    ∀ (segs : List Segment) (a z d : ℕ),
      (∀ s0, segs.head? = some s0 → s0.start = a) →
      (∀ sl, segs.getLast? = some sl → sl.stop = z) →
      List.Chain' (fun x y => x.stop + 1 = y.start) segs →
      segs ≠ [] → a ≤ d → d ≤ z →
      ∃ s ∈ segs, s.start ≤ d ∧ d ≤ s.stop := by
  intro segs
  induction segs with
  | nil =>
    intro a z d _ _ _ hne _ _
    exact absurd rfl hne
  | cons x tl ih =>
    intro a z d hhead hlast hchain _ had hdz
    have hxa : x.start = a := hhead x rfl
    rcases tl with _ | ⟨y, tl'⟩
    · have hxz : x.stop = z := hlast x rfl
      exact ⟨x, List.mem_singleton_self x, by omega, by omega⟩
    · by_cases hd : d ≤ x.stop
      · exact ⟨x, List.mem_cons_self x (y :: tl'), by omega, hd⟩
      · have hxy : x.stop + 1 = y.start := (List.chain'_cons.mp hchain).1
        have hchain' : List.Chain' (fun x y => x.stop + 1 = y.start) (y :: tl') :=
          (List.chain'_cons.mp hchain).2
        have hlast' : ∀ sl, (y :: tl').getLast? = some sl → sl.stop = z := by
          intro sl hl
          apply hlast
          rw [List.getLast?_cons_cons]
          exact hl
        obtain ⟨s, hs, h1, h2⟩ := ih y.start z d (fun s0 h0 => by
            simp only [List.head?_cons, Option.some.injEq] at h0
            rw [← h0]) hlast' hchain' (by simp) (by omega) hdz
        exact ⟨s, List.mem_cons_of_mem x hs, h1, h2⟩

/-- C1: for every configuration (with a valid window) on which the
segment builder succeeds, the returned segments are in chronological
order, pairwise non-overlapping, contiguous (each end + 1 day = next
start), and their union of date ranges is exactly
`[start_date, end_date]`. -/
theorem claim_C1_segment_invariants (cfg : BacktestConfig) (info : Option (List FSymbol))
    (segs : List Segment) (h : buildContractSegments cfg info = .ok segs)
    (hv : cfg.start_date ≤ cfg.end_date) :
    List.Pairwise (fun a b => a.stop < b.start) segs ∧
    List.Chain' (fun a b => a.stop + 1 = b.start) segs ∧
    (∀ s ∈ segs, s.start ≤ s.stop) ∧
    (∀ d : ℕ, (cfg.start_date ≤ d ∧ d ≤ cfg.end_date) ↔
      ∃ s ∈ segs, s.start ≤ d ∧ d ≤ s.stop) := by
  simp only [buildContractSegments] at h
  obtain ⟨hemp, hhead, hmem, hchain, hlast, hpair⟩ :=
    segAux_spec cfg.future_pair cfg.roll_buffer_days cfg.end_date
      (detectContractSize cfg.future_pair info)
      (quarterlyDeliveries (cfg.start_date - 365) (cfg.end_date + 365))
      cfg.start_date segs h
  have hne : segs ≠ [] := by
    intro he
    have := hemp he
    omega
  refine ⟨hpair, hchain, fun s hs => (hmem s hs).2.1, fun d => ⟨?_, ?_⟩⟩
  · intro hd
    exact segs_cover_forward segs cfg.start_date cfg.end_date d hhead hlast hchain hne
      hd.1 hd.2
  · rintro ⟨s, hs, h1, h2⟩
    have := hmem s hs
    omega

theorem claim_C1_witness :
    List.Pairwise (fun a b => a.stop < b.start) segsA ∧
    List.Chain' (fun a b => a.stop + 1 = b.start) segsA :=
  ⟨(claim_C1_segment_invariants cfg2021 none segsA (by decide) (by decide)).1,
   (claim_C1_segment_invariants cfg2021 none segsA (by decide) (by decide)).2.1⟩

/-- C8: the builder never silently returns a segment list that falls
short of `end_date`: on success the list is non-empty and its last
segment ends exactly at `end_date`, and when the deliveries run out
first (here: a 400-day buffer) it returns the fatal
insufficient-coverage error. -/
theorem claim_C8_insufficient_coverage_error :
    (∀ (cfg : BacktestConfig) (info : Option (List FSymbol)) (segs : List Segment),
      buildContractSegments cfg info = .ok segs → cfg.start_date ≤ cfg.end_date →
      segs ≠ [] ∧ ∀ sl, segs.getLast? = some sl → sl.stop = cfg.end_date) ∧
    buildContractSegments cfgInsufficient none =
      .error "Not enough delivery contracts to cover the requested window." := by
  constructor
  · intro cfg info segs h hv
    simp only [buildContractSegments] at h
    obtain ⟨hemp, _, _, _, hlast, _⟩ :=
      segAux_spec cfg.future_pair cfg.roll_buffer_days cfg.end_date
        (detectContractSize cfg.future_pair info)
        (quarterlyDeliveries (cfg.start_date - 365) (cfg.end_date + 365))
        cfg.start_date segs h
    refine ⟨fun he => ?_, hlast⟩
    have := hemp he
    omega
  · decide

theorem claim_C8_witness :
    (⟨"BTCUSD_211231", gdays 2021 9 24, gdays 2021 9 30, 100⟩ : Segment).stop =
      cfg2021.end_date :=
  (claim_C8_insufficient_coverage_error.1 cfg2021 none segsA (by decide) (by decide)).2
    _ (by decide)

/-- C9: when the metadata lookup fails (`none`) or yields no usable
value for the pair, `_detect_contract_size` returns the fallback 100
without raising, and segment construction proceeds with that value. -/
theorem claim_C9_contract_size_fallback :
    (∀ pair : String, detectContractSize pair none = 100) ∧
    (∀ (pair : String) (syms : List FSymbol),
      (∀ s ∈ syms, s.pair = pair → s.contractType ≠ "PERPETUAL" →
        ∀ v, s.contractSize = some v → v = 0) →
      detectContractSize pair (some syms) = 100) ∧
    (∀ (cfg : BacktestConfig) (segs : List Segment),
      buildContractSegments cfg none = .ok segs →
      ∀ s ∈ segs, s.contractSize = 100) := by
  refine ⟨fun _ => rfl, ?_, ?_⟩
  · intro pair syms hnone
    show detectLoop pair syms = 100
    induction syms with
    | nil => rfl
    | cons s rest ih =>
      have hrest : detectLoop pair rest = 100 := by
        apply ih
        intro t ht
        exact hnone t (List.mem_cons_of_mem s ht)
      unfold detectLoop
      split_ifs with h1 h2
      · exact hrest
      · exact hrest
      · rcases hcs : s.contractSize with _ | v
        · exact hrest
        · have hv0 : v = 0 :=
            hnone s (List.mem_cons_self s rest) (not_not.mp h1) h2 v hcs

          simp [hv0, hrest]
  · intro cfg segs h s hs
    exact segAux_contractSize cfg.future_pair cfg.roll_buffer_days cfg.end_date
      (detectContractSize cfg.future_pair none) _ cfg.start_date segs h s hs

theorem claim_C9_witness :
    detectContractSize "BTCUSD" none = 100 ∧
    detectContractSize "BTCUSD" (some [⟨"BTCUSD", "PERPETUAL", some 10⟩]) = 100 ∧
    ∀ s ∈ segsA, s.contractSize = 100 := by
  refine ⟨claim_C9_contract_size_fallback.1 "BTCUSD",
    claim_C9_contract_size_fallback.2.1 "BTCUSD" [⟨"BTCUSD", "PERPETUAL", some 10⟩] ?_,
    claim_C9_contract_size_fallback.2.2 cfg2021 segsA (by decide)⟩
  intro s hs hp hct v hv
  simp only [List.mem_singleton] at hs
  subst hs
  exact absurd rfl hct

/-! ## Simulation invariants -/

theorem pyOrQ_some_zero (v : ℚ) : pyOrQ (some v) 0 = v := by
  show (if v = 0 then (0 : ℚ) else v) = v
  split_ifs with h
  · rw [h]
  · rfl

theorem pyOrZ_some_zero (v : ℤ) : pyOrZ (some v) 0 = v := by
  show (if v = 0 then (0 : ℤ) else v) = v
  split_ifs with h
  · rw [h]
  · rfl

/-- One `_simulate` day: the record continues the carried cumulative
PnL, its roll flag is the roll condition over the carried state, the
new state records this day's prices/symbol/cum, and a roll day
re-establishes the position with zero PnL. -/
theorem simStep_spec (cfg : BacktestConfig) (spotP : ℕ → Option ℚ)
    (futP : String → ℕ → Option ℚ) (segs : List Segment) (day : ℕ) (st : SimState)
    (row : DailyRecord) (st' : SimState)
    (h : simStep cfg spotP futP segs day st = .ok (row, st')) :
    row.cum_pnl = st.cum + row.total_pnl ∧
    row.roll = ((st.prevSym != some row.future_symbol) || st.prevSpot.isNone) ∧
    st'.cum = row.cum_pnl ∧
    st'.prevSym = some row.future_symbol ∧
    st'.prevSpot = some row.spot_price ∧
    (row.roll = true →
      row.spot_pnl = 0 ∧ row.future_pnl = 0 ∧
      row.spot_position = cfg.notional_usdt / row.spot_price ∧
      ∀ seg, segMetaFind segs row.future_symbol = some seg →
        row.future_contracts =
          ((max 1 (bankersRound (cfg.notional_usdt / seg.contractSize)) : ℤ) : ℚ)) := by
  unfold simStep at h
  split at h
  case h_2 => exact absurd h (by simp)
  case h_1 spot_price symbol hsp hsym =>
    split at h
    case h_2 => exact absurd h (by simp)
    case h_1 future_price hfp =>
      split at h
      case h_2 => exact absurd h (by simp)
      case h_1 seg hseg =>
        split at h
        case h_1 => exact absurd h (by simp)
        case h_2 spot_pnl future_pnl spotQty contracts heq =>
          simp only [Except.ok.injEq, Prod.mk.injEq] at h
          obtain ⟨hrow, hst⟩ := h
          subst hrow
          subst hst
          refine ⟨rfl, rfl, rfl, rfl, rfl, ?_⟩
          intro hrollr
          by_cases hroll : ((st.prevSym != some symbol) || st.prevSpot.isNone) = true
          · rw [if_pos hroll] at heq
            split at heq
            · exact absurd heq (by simp)
            · simp only [Except.ok.injEq, Prod.mk.injEq] at heq
              obtain ⟨h1, h2, h3, h4⟩ := heq
              subst h1
              subst h2
              subst h3
              subst h4
              refine ⟨rfl, rfl, pyOrQ_some_zero _, ?_⟩
              intro seg' hseg'
              rw [hseg] at hseg'
              cases hseg'
              simp only []
              rw [pyOrZ_some_zero]
          · exact absurd hrollr (by simp [hroll])

/-- Combined loop invariant of `_simulate`: the head record continues
the carried cumulative PnL and reads its roll flag off the carried
state; consecutive records satisfy the cum-PnL recurrence and the
roll-iff-symbol-change law; and every roll record re-establishes the
position with zero PnL. -/
theorem simAux_spec (cfg : BacktestConfig) (spotP : ℕ → Option ℚ)
    (futP : String → ℕ → Option ℚ) (segs : List Segment) :
    ∀ (n day : ℕ) (st : SimState) (recs : List DailyRecord),
      simAux cfg spotP futP segs n day st = .ok recs →
      (∀ r0, recs.head? = some r0 →
        r0.cum_pnl = st.cum + r0.total_pnl ∧
        r0.roll = ((st.prevSym != some r0.future_symbol) || st.prevSpot.isNone)) ∧
      List.Chain' (fun a b => b.cum_pnl = a.cum_pnl + b.total_pnl ∧
        (b.roll = true ↔ b.future_symbol ≠ a.future_symbol)) recs ∧
      (∀ r ∈ recs, r.roll = true →
        r.spot_pnl = 0 ∧ r.future_pnl = 0 ∧
        r.spot_position = cfg.notional_usdt / r.spot_price ∧
        ∀ seg, segMetaFind segs r.future_symbol = some seg →
          r.future_contracts =
            ((max 1 (bankersRound (cfg.notional_usdt / seg.contractSize)) : ℤ) : ℚ)) := by
  intro n
  induction n with
  | zero =>
    intro day st recs h
    simp only [simAux] at h
    cases h
    exact ⟨by simp, by simp, by simp⟩
  | succ n ih =>
    intro day st recs h
    simp only [simAux] at h
    split at h
    case h_1 => exact absurd h (by simp)
    case h_2 row st' hstep =>
      rcases hex : simAux cfg spotP futP segs n (day + 1) st' with e | rest
      · rw [hex] at h
        exact absurd h (by simp [Except.map])
      · rw [hex] at h
        simp only [Except.map] at h
        cases h
        obtain ⟨ihhead, ihchain, ihroll⟩ := ih (day + 1) st' rest hex
        obtain ⟨hcum, hroll, hstcum, hstsym, hstspot, hrollday⟩ :=
          simStep_spec cfg spotP futP segs day st row st' hstep
        refine ⟨?_, ?_, ?_⟩
        · intro r0 h0
          simp only [List.head?_cons, Option.some.injEq] at h0
          subst h0
          exact ⟨hcum, hroll⟩
        · rw [List.chain'_cons']
          refine ⟨?_, ihchain⟩
          intro y hy
          obtain ⟨ycum, yroll⟩ := ihhead y hy
          refine ⟨by rw [ycum, hstcum], ?_⟩
          rw [yroll, hstsym, hstspot]
          simp only [Option.isNone_some, Bool.or_false, bne_iff_ne, ne_eq,
            Option.some.injEq]
          constructor
          · intro hne he
            exact hne he.symm
          · intro hne he
            exact hne he.symm
        · intro r hr hrollr
          cases hr with
          | head => exact hrollday hrollr
          | tail _ htl => exact ihroll r htl hrollr

/-- C4: in every record sequence `_simulate` returns, each record's
`cum_pnl` is the previous record's `cum_pnl` plus its own `total_pnl`
(starting from 0 on the first record), and a record's `roll` flag is
true iff its future symbol differs from the previous day's or it is
the first day. -/
theorem claim_C4_cum_pnl_and_roll_flag (cfg : BacktestConfig) (spotP : ℕ → Option ℚ)
    (futP : String → ℕ → Option ℚ) (segs : List Segment) (recs : List DailyRecord)
    (h : simulate cfg spotP futP segs = .ok recs) :
    (∀ r0, recs.head? = some r0 → r0.cum_pnl = 0 + r0.total_pnl ∧ r0.roll = true) ∧
    List.Chain' (fun a b => b.cum_pnl = a.cum_pnl + b.total_pnl ∧
      (b.roll = true ↔ b.future_symbol ≠ a.future_symbol)) recs := by
  unfold simulate at h
  obtain ⟨hhead, hchain, _⟩ := simAux_spec cfg spotP futP segs _ _ _ recs h
  refine ⟨?_, hchain⟩
  intro r0 h0
  obtain ⟨hcum, hroll⟩ := hhead r0 h0
  refine ⟨hcum, ?_⟩
  rw [hroll]
  simp

theorem claim_C4_witness :
    List.Chain' (fun a b => b.cum_pnl = a.cum_pnl + b.total_pnl ∧
      (b.roll = true ↔ b.future_symbol ≠ a.future_symbol)) recsW ∧
    (recW0.cum_pnl = 0 + recW0.total_pnl ∧ recW0.roll = true) := by
  have h := claim_C4_cum_pnl_and_roll_flag cfgW spotW futW segsW recsW (by decide)
  exact ⟨h.2, h.1 recW0 (by decide)⟩

/-- C3: on every roll day (including day 0) `_simulate` re-establishes
the position as `spotQty = notional / spotPrice_t` and
`contracts = round(notional / contractSize)` with a minimum of 1, and
both `spot_pnl` and `future_pnl` are exactly 0; in particular with
notional 1 000 000, contract size 100 and spot price 40 000 at the
roll, `spotQty = 25` and `contracts = 10 000`. -/
theorem claim_C3_roll_day_position (cfg : BacktestConfig) (spotP : ℕ → Option ℚ)
    (futP : String → ℕ → Option ℚ) (segs : List Segment) (recs : List DailyRecord)
    (h : simulate cfg spotP futP segs = .ok recs) :
    (∀ r ∈ recs, r.roll = true →
      r.spot_pnl = 0 ∧ r.future_pnl = 0 ∧
      r.spot_position = cfg.notional_usdt / r.spot_price ∧
      ∀ seg, segMetaFind segs r.future_symbol = some seg →
        r.future_contracts =
          ((max 1 (bankersRound (cfg.notional_usdt / seg.contractSize)) : ℤ) : ℚ)) ∧
    ((1000000 : ℚ) / 40000 = 25 ∧
      max 1 (bankersRound ((1000000 : ℚ) / 100)) = 10000) := by
  unfold simulate at h
  obtain ⟨_, _, hroll⟩ := simAux_spec cfg spotP futP segs _ _ _ recs h
  exact ⟨hroll, by decide, by decide⟩

theorem claim_C3_witness :
    recW0.roll = true ∧ recW0.spot_pnl = 0 ∧ recW0.future_pnl = 0 ∧
    recW0.spot_position = 25 ∧ recW0.future_contracts = 10000 := by
  have h := (claim_C3_roll_day_position cfgW spotW futW segsW recsW (by decide)).1
    recW0 (by decide) (by decide)
  refine ⟨by decide, h.1, h.2.1, ?_, ?_⟩
  · rw [h.2.2.1]
    decide
  · rw [h.2.2.2 ⟨"BTCUSD_210326", 0, 2, 100⟩ (by decide)]
    decide

/-! ## TWAP execution invariants -/

theorem place_spot_slice_events_dry (ex : SpreadExecutor) (side : Side) (tq bb ba : ℚ)
    (hd : ex.config.dry_run = true) :
    ((ex.place_spot_slice side tq bb ba).2).filter
      (fun e => e.isSlept || e.isSubmitted) = [] := by
  simp only [SpreadExecutor.place_spot_slice]
  split_ifs <;>
    simp [SpreadExecutor.submitEvents, hd, Event.isSlept, Event.isSubmitted]

theorem place_future_slice_events_dry (ex : SpreadExecutor) (side : Side) (tc bb ba : ℚ)
    (hd : ex.config.dry_run = true) :
    ((ex.place_future_slice side tc bb ba).2).filter
      (fun e => e.isSlept || e.isSubmitted) = [] := by
  simp only [SpreadExecutor.place_future_slice]
  split_ifs <;>
    simp [SpreadExecutor.submitEvents, hd, Event.isSlept, Event.isSubmitted]

theorem openTick_events_dry (ex : SpreadExecutor) (ss fs : Side) (sbk fbk : ℚ × ℚ)
    (slices idx : ℕ) (sRem fRem : ℚ) (hd : ex.config.dry_run = true) :
    ((ex.openTick ss fs sbk fbk slices idx sRem fRem).events).filter
      (fun e => e.isSlept || e.isSubmitted) = [] := by
  simp only [SpreadExecutor.openTick, hd]
  split_ifs with h1 h2
  · rfl
  · exact absurd h2 (by simp)
  · simp [List.filter_append, place_spot_slice_events_dry ex ss _ _ _ hd,
      place_future_slice_events_dry ex fs _ _ _ hd]

theorem runOpenAux_events_dry (ex : SpreadExecutor) (ss fs : Side) (sb fb : ℕ → ℚ × ℚ)
    (slices : ℕ) (hd : ex.config.dry_run = true) :
    ∀ (idxs : List ℕ) (sRem fRem : ℚ),
      ∀ r ∈ ex.runOpenAux ss fs sb fb slices idxs sRem fRem,
        r.events.filter (fun e => e.isSlept || e.isSubmitted) = [] := by
  intro idxs
  induction idxs with
  | nil =>
    intro sRem fRem r hr
    cases hr
  | cons idx rest ih =>
    intro sRem fRem r hr
    simp only [SpreadExecutor.runOpenAux] at hr
    cases hr with
    | head => exact openTick_events_dry ex ss fs (sb idx) (fb idx) slices idx sRem fRem hd
    | tail _ htl => exact ih _ _ r htl

/-- C6: the number of TWAP slices is
`max(1, duration_minutes // slice_interval_minutes)` — 288 for 24 h at
5-minute slices — and a dry run emits no sleep and submits no order. -/
theorem claim_C6_num_slices_and_dry_run :
    (∀ cfg : ExecutionConfig, cfg.num_slices =
      max 1 (cfg.duration_hours * 60 / cfg.slice_interval_minutes)) ∧
    (ExecutionConfig.num_slices {} = 288) ∧
    (∀ (ex : SpreadExecutor) (ss fs : Side) (sb fb : ℕ → ℚ × ℚ),
      ex.config.dry_run = true →
      ∀ r ∈ ex.run_twap_open ss fs sb fb,
        r.events.filter (fun e => e.isSlept || e.isSubmitted) = []) := by
  refine ⟨fun _ => rfl, by decide, ?_⟩
  intro ex ss fs sb fb hd r hr
  exact runOpenAux_events_dry ex ss fs sb fb _ hd _ _ _ r hr

theorem claim_C6_witness :
    ((SpreadExecutor.run_twap_open exW6 .buy .sell bookW bookW).headD default).events.filter
      (fun e => e.isSlept || e.isSubmitted) = [] :=
  claim_C6_num_slices_and_dry_run.2.2 exW6 .buy .sell bookW bookW rfl _ (by decide)

theorem place_spot_slice_nonneg (ex : SpreadExecutor) (side : Side) (tq bb ba : ℚ)
    (hs : 0 < ex.spotFilter.stepSize) :
    0 ≤ (ex.place_spot_slice side tq bb ba).1 := by
  simp only [SpreadExecutor.place_spot_slice]
  split_ifs <;>
    first
      | exact le_rfl
      | exact round_to_step_nonneg (le_of_lt (not_le.mp (by assumption))) hs

theorem place_spot_slice_le (ex : SpreadExecutor) (side : Side) (tq bb ba : ℚ)
    (a : ℤ) (ha : ex.spotFilter.stepSize = (10 : ℚ) ^ a) :
    (ex.place_spot_slice side tq bb ba).1 ≤ max tq 0 := by
  simp only [SpreadExecutor.place_spot_slice]
  split_ifs <;>
    first
      | exact le_max_right tq 0
      | (rw [ha]
         exact le_trans (round_to_step_zpow_le _ a) (le_max_left tq 0))

theorem place_future_slice_nonneg (ex : SpreadExecutor) (side : Side) (tc bb ba : ℚ)
    (hf : 0 < ex.futureFilter.stepSize) :
    0 ≤ (ex.place_future_slice side tc bb ba).1 := by
  simp only [SpreadExecutor.place_future_slice]
  split_ifs <;>
    first
      | exact le_rfl
      | exact round_to_step_nonneg (le_of_lt (not_le.mp (by assumption))) hf

theorem place_future_slice_le (ex : SpreadExecutor) (side : Side) (tc bb ba : ℚ)
    (b : ℤ) (hb : ex.futureFilter.stepSize = (10 : ℚ) ^ b) :
    (ex.place_future_slice side tc bb ba).1 ≤ max tc 0 := by
  simp only [SpreadExecutor.place_future_slice]
  split_ifs <;>
    first
      | exact le_max_right tc 0
      | (rw [hb]
         exact le_trans (round_to_step_zpow_le _ b) (le_max_left tc 0))

/-- One `_run_twap_open` iteration: remaining notionals never grow,
stay nonnegative, and are unchanged by a skipped slice; with
power-of-ten lot steps the executed notional of the tick never exceeds
the remaining notional, and the update is exact subtraction. -/
theorem openTick_spec (ex : SpreadExecutor) (ss fs : Side) (sbk fbk : ℚ × ℚ)
    (slices idx : ℕ) (sRem fRem : ℚ)
    (hsrem : 0 ≤ sRem) (hfrem : 0 ≤ fRem)
    (hs : 0 < ex.spotFilter.stepSize) (hf : 0 < ex.futureFilter.stepSize)
    (hc : 0 < ex.contract_size) :
    (ex.openTick ss fs sbk fbk slices idx sRem fRem).spotRemBefore = sRem ∧
    (ex.openTick ss fs sbk fbk slices idx sRem fRem).futRemBefore = fRem ∧
    0 ≤ (ex.openTick ss fs sbk fbk slices idx sRem fRem).executedSpotNotional ∧
    0 ≤ (ex.openTick ss fs sbk fbk slices idx sRem fRem).executedFutNotional ∧
    (ex.openTick ss fs sbk fbk slices idx sRem fRem).spotRemAfter ≤ sRem ∧
    (ex.openTick ss fs sbk fbk slices idx sRem fRem).futRemAfter ≤ fRem ∧
    0 ≤ (ex.openTick ss fs sbk fbk slices idx sRem fRem).spotRemAfter ∧
    0 ≤ (ex.openTick ss fs sbk fbk slices idx sRem fRem).futRemAfter ∧
    ((ex.openTick ss fs sbk fbk slices idx sRem fRem).executedSpotNotional = 0 →
      (ex.openTick ss fs sbk fbk slices idx sRem fRem).spotRemAfter = sRem) ∧
    ((ex.openTick ss fs sbk fbk slices idx sRem fRem).executedFutNotional = 0 →
      (ex.openTick ss fs sbk fbk slices idx sRem fRem).futRemAfter = fRem) ∧
    (∀ a : ℤ, ex.spotFilter.stepSize = (10 : ℚ) ^ a →
      (ex.openTick ss fs sbk fbk slices idx sRem fRem).executedSpotNotional ≤ sRem ∧
      (ex.openTick ss fs sbk fbk slices idx sRem fRem).spotRemAfter =
        sRem - (ex.openTick ss fs sbk fbk slices idx sRem fRem).executedSpotNotional) ∧
    (∀ b : ℤ, ex.futureFilter.stepSize = (10 : ℚ) ^ b →
      (ex.openTick ss fs sbk fbk slices idx sRem fRem).executedFutNotional ≤ fRem ∧
      (ex.openTick ss fs sbk fbk slices idx sRem fRem).futRemAfter =
        fRem - (ex.openTick ss fs sbk fbk slices idx sRem fRem).executedFutNotional) := by
  have hsl : (1 : ℚ) ≤ ((max 1 (slices - idx) : ℕ) : ℚ) := by
    exact_mod_cast Nat.le_max_left 1 (slices - idx)
  simp only [SpreadExecutor.openTick]
  generalize (if ex.config.dry_run = false ∧ idx + 1 < slices then [Event.slept] else []) = ev
  split_ifs with h1
  · refine ⟨rfl, rfl, le_rfl, le_rfl, le_rfl, le_rfl, hsrem, hfrem,
      fun _ => rfl, fun _ => rfl, ?_, ?_⟩
    · exact fun a ha => ⟨hsrem, by ring⟩
    · exact fun b hb => ⟨hfrem, by ring⟩
  · have hp : 0 < (match ss with | Side.buy => sbk.2 | Side.sell => sbk.1) :=
      lt_of_not_le h1
    set price := (match ss with | Side.buy => sbk.2 | Side.sell => sbk.1) with hprice
    set sq := (ex.place_spot_slice ss (sRem / ((max 1 (slices - idx) : ℕ) : ℚ) / price)
      sbk.1 sbk.2).1 with hsq
    set fq := (ex.place_future_slice fs
      (fRem / ((max 1 (slices - idx) : ℕ) : ℚ) / ex.contract_size) fbk.1 fbk.2).1 with hfq
    have hsq0 : 0 ≤ sq := place_spot_slice_nonneg ex ss _ sbk.1 sbk.2 hs
    have hfq0 : 0 ≤ fq := place_future_slice_nonneg ex fs _ fbk.1 fbk.2 hf
    have hes : 0 ≤ sq * price := mul_nonneg hsq0 hp.le
    have hef : 0 ≤ fq * ex.contract_size := mul_nonneg hfq0 hc.le
    refine ⟨rfl, rfl, hes, hef, ?_, ?_, le_max_left 0 _, le_max_left 0 _, ?_, ?_, ?_, ?_⟩
    · exact max_le hsrem (by linarith)
    · exact max_le hfrem (by linarith)
    · intro he
      dsimp only at he ⊢
      rw [he, sub_zero]
      exact max_eq_right hsrem
    · intro he
      dsimp only at he ⊢
      rw [he, sub_zero]
      exact max_eq_right hfrem
    · intro a ha
      have hplan : 0 ≤ sRem / ((max 1 (slices - idx) : ℕ) : ℚ) / price :=
        div_nonneg (div_nonneg hsrem (by linarith)) hp.le
      have hle : sq ≤ sRem / ((max 1 (slices - idx) : ℕ) : ℚ) / price := by
        have := place_spot_slice_le ex ss
          (sRem / ((max 1 (slices - idx) : ℕ) : ℚ) / price) sbk.1 sbk.2 a ha
        rw [max_eq_left hplan] at this
        exact this
      have hmul : sq * price ≤ sRem / ((max 1 (slices - idx) : ℕ) : ℚ) := by
        calc sq * price ≤ sRem / ((max 1 (slices - idx) : ℕ) : ℚ) / price * price :=
              mul_le_mul_of_nonneg_right hle hp.le
          _ = sRem / ((max 1 (slices - idx) : ℕ) : ℚ) := div_mul_cancel₀ _ hp.ne'
      have hfin : sq * price ≤ sRem :=
        le_trans hmul (div_le_self hsrem hsl)
      exact ⟨hfin, max_eq_right (by linarith)⟩
    · intro b hb
      have hplan : 0 ≤ fRem / ((max 1 (slices - idx) : ℕ) : ℚ) / ex.contract_size :=
        div_nonneg (div_nonneg hfrem (by linarith)) hc.le
      have hle : fq ≤ fRem / ((max 1 (slices - idx) : ℕ) : ℚ) / ex.contract_size := by
        have := place_future_slice_le ex fs
          (fRem / ((max 1 (slices - idx) : ℕ) : ℚ) / ex.contract_size) fbk.1 fbk.2 b hb
        rw [max_eq_left hplan] at this
        exact this
      have hmul : fq * ex.contract_size ≤ fRem / ((max 1 (slices - idx) : ℕ) : ℚ) := by
        calc fq * ex.contract_size
            ≤ fRem / ((max 1 (slices - idx) : ℕ) : ℚ) / ex.contract_size * ex.contract_size :=
              mul_le_mul_of_nonneg_right hle hc.le
          _ = fRem / ((max 1 (slices - idx) : ℕ) : ℚ) := div_mul_cancel₀ _ hc.ne'
      have hfin : fq * ex.contract_size ≤ fRem :=
        le_trans hmul (div_le_self hfrem hsl)
      exact ⟨hfin, max_eq_right (by linarith)⟩

/-- The `_run_twap_open` loop invariant, over an arbitrary index list:
per-tick monotonicity and skip-invariance of the remaining notionals,
the state threading between consecutive ticks, and — for power-of-ten
lot steps — the executed-notional sums bounded by the starting
remainders. -/
theorem runOpenAux_spec (ex : SpreadExecutor) (ss fs : Side) (sb fb : ℕ → ℚ × ℚ)
    (slices : ℕ)
    (hs : 0 < ex.spotFilter.stepSize) (hf : 0 < ex.futureFilter.stepSize)
    (hc : 0 < ex.contract_size) :
    ∀ (idxs : List ℕ) (sRem fRem : ℚ), 0 ≤ sRem → 0 ≤ fRem →
      (∀ r ∈ ex.runOpenAux ss fs sb fb slices idxs sRem fRem,
        r.spotRemAfter ≤ r.spotRemBefore ∧ r.futRemAfter ≤ r.futRemBefore ∧
        (r.executedSpotNotional = 0 → r.spotRemAfter = r.spotRemBefore) ∧
        (r.executedFutNotional = 0 → r.futRemAfter = r.futRemBefore)) ∧
      (∀ r0 ∈ (ex.runOpenAux ss fs sb fb slices idxs sRem fRem).head?,
        r0.spotRemBefore = sRem ∧ r0.futRemBefore = fRem) ∧
      List.Chain' (fun x y => y.spotRemBefore = x.spotRemAfter ∧
        y.futRemBefore = x.futRemAfter) (ex.runOpenAux ss fs sb fb slices idxs sRem fRem) ∧
      (∀ a : ℤ, ex.spotFilter.stepSize = (10 : ℚ) ^ a →
        ((ex.runOpenAux ss fs sb fb slices idxs sRem fRem).map
          (·.executedSpotNotional)).sum ≤ sRem) ∧
      (∀ b : ℤ, ex.futureFilter.stepSize = (10 : ℚ) ^ b →
        ((ex.runOpenAux ss fs sb fb slices idxs sRem fRem).map
          (·.executedFutNotional)).sum ≤ fRem) := by
  intro idxs
  induction idxs with
  | nil =>
    intro sRem fRem hsr hfr
    refine ⟨by simp [SpreadExecutor.runOpenAux], by simp [SpreadExecutor.runOpenAux],
      by simp [SpreadExecutor.runOpenAux], ?_, ?_⟩
    · intro a ha
      simpa [SpreadExecutor.runOpenAux] using hsr
    · intro b hb
      simpa [SpreadExecutor.runOpenAux] using hfr
  | cons idx rest ih =>
    intro sRem fRem hsr hfr
    obtain ⟨tb1, tb2, te1, te2, ta1, ta2, ta3, ta4, tk1, tk2, tp1, tp2⟩ :=
      openTick_spec ex ss fs (sb idx) (fb idx) slices idx sRem fRem hsr hfr hs hf hc
    obtain ⟨ih1, ih2, ih3, ih4, ih5⟩ :=
      ih (ex.openTick ss fs (sb idx) (fb idx) slices idx sRem fRem).spotRemAfter
        (ex.openTick ss fs (sb idx) (fb idx) slices idx sRem fRem).futRemAfter ta3 ta4
    simp only [SpreadExecutor.runOpenAux]
    refine ⟨?_, ?_, ?_, ?_, ?_⟩
    · intro r hr
      cases hr with
      | head =>
        refine ⟨?_, ?_, ?_, ?_⟩
        · rw [tb1]
          exact ta1
        · rw [tb2]
          exact ta2
        · intro he
          rw [tb1]
          exact tk1 he
        · intro he
          rw [tb2]
          exact tk2 he
      | tail _ htl => exact ih1 r htl
    · intro r0 h0
      simp only [List.head?_cons, Option.mem_def, Option.some.injEq] at h0
      subst h0
      exact ⟨tb1, tb2⟩
    · rw [List.chain'_cons']
      exact ⟨fun y hy => ⟨(ih2 y hy).1, (ih2 y hy).2⟩, ih3⟩
    · intro a ha
      have hsum := ih4 a ha
      obtain ⟨hle, heq⟩ := tp1 a ha
      simp only [List.map_cons, List.sum_cons]
      linarith
    · intro b hb
      have hsum := ih5 b hb
      obtain ⟨hle, heq⟩ := tp2 b hb
      simp only [List.map_cons, List.sum_cons]
      linarith

/-- C7 (amended): across the ticks of one TWAP open run both remaining
notionals are monotonically non-increasing and a skipped slice leaves
them unchanged; when a leg's lot step is an integer power of ten (as
on the real exchange) the summed executed notional of that leg never
exceeds the original target notional at all, hence never by more than
one step-rounding unit. -/
theorem claim_C7_remaining_monotone_and_executed_sum (ex : SpreadExecutor) (ss fs : Side)
    (sb fb : ℕ → ℚ × ℚ)
    (hs : 0 < ex.spotFilter.stepSize) (hf : 0 < ex.futureFilter.stepSize)
    (hc : 0 < ex.contract_size) (hn : 0 ≤ ex.config.notional_usdt) :
    (∀ r ∈ ex.run_twap_open ss fs sb fb,
      r.spotRemAfter ≤ r.spotRemBefore ∧ r.futRemAfter ≤ r.futRemBefore ∧
      (r.executedSpotNotional = 0 → r.spotRemAfter = r.spotRemBefore) ∧
      (r.executedFutNotional = 0 → r.futRemAfter = r.futRemBefore)) ∧
    List.Chain' (fun x y => y.spotRemBefore = x.spotRemAfter ∧
      y.futRemBefore = x.futRemAfter) (ex.run_twap_open ss fs sb fb) ∧
    (∀ a : ℤ, ex.spotFilter.stepSize = (10 : ℚ) ^ a →
      ((ex.run_twap_open ss fs sb fb).map (·.executedSpotNotional)).sum ≤
        ex.config.notional_usdt) ∧
    (∀ b : ℤ, ex.futureFilter.stepSize = (10 : ℚ) ^ b →
      ((ex.run_twap_open ss fs sb fb).map (·.executedFutNotional)).sum ≤
        ex.config.notional_usdt) := by
  obtain ⟨h1, _, h3, h4, h5⟩ := runOpenAux_spec ex ss fs sb fb ex.config.num_slices.toNat
    hs hf hc (List.range ex.config.num_slices.toNat)
    ex.config.notional_usdt ex.config.notional_usdt hn hn
  exact ⟨h1, h3, h4, h5⟩

theorem claim_C7_witness :
    ((SpreadExecutor.run_twap_open exW6 .buy .sell bookW bookW).map
      (·.executedSpotNotional)).sum ≤ exW6.config.notional_usdt :=
  ((claim_C7_remaining_monotone_and_executed_sum exW6 .buy .sell bookW bookW
    (by decide) (by decide) (by decide) (by decide)).2.2.1) (-3) (by decide)

/-- C7 counterexample: with the (non-power-of-ten) spot lot step
0.375 and target notional 1.5 at unit prices, the single slice's
planned quantity 1.5 = 4 × 0.375 sits exactly on the step grid
(`1.5 / 0.375 = 4` is exact even in IEEE doubles, all values being
dyadic) but the derived precision is `round(-log10 0.375) = 0`, and
`round(1.5, 0)` resolves the half-to-even tie *upward* to 2, so the
executed notional 2 exceeds the target by 0.5 — more than one
step-rounding unit (0.375 at reference price 1). -/
theorem claim_C7_counterexample :
    ((SpreadExecutor.run_twap_open exC7 .buy .sell onesBook onesBook).map
      (·.executedSpotNotional)).sum = 2 ∧
    exC7.config.notional_usdt + exC7.spotFilter.stepSize * 1 < 2 := by
  constructor <;> decide

end QuantTrader
